import Mathlib

/-!
# libnss-http: a shallow embedding of `libnss_http.c`

The C source is one file. Its functions are embedded as executable Lean
definitions that keep the C names:

* `ft_count_words`, `count_letters`, `ft_wordscpy`, `ft_split`, `ft_strsplit`,
  `get_array_length`: the colon-delimited record tokenizer;
* `http_request_message`, `message_size`, `http_response`, `http_request_return`:
  the request rendering and the response parsing of `http_request`, and the
  pointer it returns;
* `send_loop`, `recv_loop`: the write and read loops of `http_request`, run on
  the values that the successive `write` and `read` calls return;
* `parse_config`, `read_conf`: the configuration loader;
* `getpwnam_endpoint`, `getpwnam_request`, `getpwnam_record`: the steps of the
  account lookup `_nss_ftp_accounts_manager_getpwnam_r`, and the lookup itself.

## Conventions

A C string is the list of the `char`s that stand before its terminating NUL
(one `Char` per C `char`); a pointer into a string is the list of the chars
from the pointer on. Reading through a pointer that stands on the terminator
yields NUL (`deref`). A `char *` that may be `NULL` is an `Option`.
`malloc` is taken to succeed. Lengths are natural numbers.
-/

namespace LibnssHttp

/-! ## C strings -/

/-- The NUL character that terminates a C string. -/
def NUL : Char := '\x00'

/-- The value of `*g` for a pointer `g` into a NUL-terminated string: the next
char, or NUL when `g` stands on the terminator. -/
def deref (g : List Char) : Char := g.headD NUL

/-- The C library's `strlen`. -/
def strlen (s : List Char) : Nat := s.length

/-! ## The tokenizer (`ft_count_words` .. `ft_strsplit`) -/

/-- The first inner loop of `ft_count_words`:
`while (str[i] == c && str[i] != 0) i++;` on the pointer `str + i`. -/
def count_words_skip : List Char → Char → List Char
  | [], _ => []
  | x :: g, c => if x == c && x != NUL then count_words_skip g c else x :: g

/-- The second inner loop of `ft_count_words`:
`while (str[i] != 0 && str[i] != c) i++;` on the pointer `str + i`. -/
def count_words_word : List Char → Char → List Char
  | [], _ => []
  | x :: g, c => if x != NUL && x != c then count_words_word g c else x :: g

/-- The outer loop of `ft_count_words`, one iteration per unit of fuel;
`str` is the pointer `str + i` and `n` the counter. -/
def ft_count_words_loop : Nat → List Char → Char → Nat → Nat
  | 0, _, _, n => n
  | fuel + 1, str, c, n =>
    if deref str != NUL then
      let str1 := count_words_skip str c
      if deref str1 == NUL then n
      else ft_count_words_loop fuel (count_words_word str1 c) c (n + 1)
    else n

/-- The function `ft_count_words(str, c)`. Every iteration of the outer loop
that does not leave it advances `i`, so `strlen(str) + 1` iterations suffice. -/
def ft_count_words (str : List Char) (c : Char) : Nat :=
  ft_count_words_loop (strlen str + 1) str c 0

/-- The loop of `count_letters`: `while (*g != 0 && *g++ != c) l++;`. -/
def count_letters_loop : List Char → Char → Nat → Nat
  | [], _, l => l
  | x :: g, c, l => if x != NUL && x != c then count_letters_loop g c (l + 1) else l

/-- The function `count_letters(g, c)`. -/
def count_letters (g : List Char) (c : Char) : Nat := count_letters_loop g c 0

/-- The function `ft_wordscpy(d, g, l)`: the string left in `d`, the first `l`
chars at `g` followed by the terminator. -/
def ft_wordscpy (g : List Char) (l : Nat) : List Char := g.take l

/-- The inner loop of `ft_split`: `while (*g == c && *g++ != 0) ;`.
When `*g` equals `c` and is not NUL the pointer advances and the loop goes on;
when `*g` equals `c` and is NUL the pointer still advances (the increment is
part of the test) and the loop ends. `ft_split` enters the loop only with
`*g != 0`, so the pointer never stands on the terminator here. -/
def ft_split_skip : List Char → Char → List Char
  | [], _ => []
  | x :: g, c => if x == c then (if x != NUL then ft_split_skip g c else g) else x :: g

/-- The outer loop of `ft_split`, one iteration per unit of fuel. `d` holds the
entries `d[0] .. d[k-1]` stored so far (`k = d.length`), `g` is the read
pointer. The result is the array `d` up to its terminating null entry. -/
def ft_split_loop : Nat → List (List Char) → List Char → Char → Option (List (List Char))
  | 0, _, _, _ => none
  | fuel + 1, d, g, c =>
    if deref g != NUL then
      let g1 := ft_split_skip g c
      if deref g1 == NUL then some d
      else
        let l := count_letters g1 c
        ft_split_loop fuel (d ++ [ft_wordscpy g1 l]) (g1.drop l) c
    else some d

/-- The function `ft_split(d, g, c)` on an empty array `d`. Every iteration that
does not leave the loop advances `g`, so `strlen(g) + 1` iterations suffice. -/
def ft_split (g : List Char) (c : Char) : Option (List (List Char)) :=
  ft_split_loop (strlen g + 1) [] g c

/-- The number of `char *` slots that `ft_strsplit` allocates for the array:
`ft_count_words(s, c) + 1`. -/
def ft_strsplit_slots (s : List Char) (c : Char) : Nat := ft_count_words s c + 1

/-- The function `ft_strsplit(s, c)`: `NULL` for a null `s`, else the
null-terminated array filled by `ft_split`. -/
def ft_strsplit (s : Option (List Char)) (c : Char) : Option (List (List Char)) :=
  match s with
  | none => none
  | some s => ft_split s c

/-- The function `get_array_length(array)`: the number of entries before the
terminating null entry. -/
def get_array_length (array : List (List Char)) : Nat := array.length

/-- The maximal non-empty runs of chars of `s` that differ from `c`, left to
right: `s` is cut at every `c` and the empty pieces are dropped. -/
def maximal_runs (c : Char) (s : List Char) : List (List Char) :=
  (s.splitOn c).filter (fun t => !t.isEmpty)

/-! ## C library functions used by the source -/

/-- The C library's `isspace` in the C locale. -/
def isspace (c : Char) : Bool :=
  c == ' ' || c == '\t' || c == '\n' || c == '\x0b' || c == '\x0c' || c == '\r'

/-- The C library's `isdigit`. -/
def isdigit (c : Char) : Bool := '0' ≤ c && c ≤ '9'

/-- The value of a run of decimal digits, most significant first. -/
def digits_value (ds : List Char) : Nat :=
  ds.foldl (fun acc d => acc * 10 + (d.toNat - '0'.toNat)) 0

/-- The result range of `strtol`: a value outside `long` (64 bits) is replaced
by `LONG_MIN` or `LONG_MAX`. -/
def clamp_long (v : Int) : Int := max (-9223372036854775808) (min v 9223372036854775807)

/-- The conversion of a `long` to `int` (32 bits, two's complement). -/
def to_int (v : Int) : Int := (v + 2147483648) % 4294967296 - 2147483648

/-- The conversion of an `int` to `uid_t` or `gid_t`, which are `unsigned int`
(32 bits) in the C library whose `nss.h` and `pwd.h` the source includes. -/
def to_uid_t (v : Int) : Nat := (v % 4294967296).toNat

/-- A decimal integer read the way `strtol(s, NULL, 10)` and the `%d` of `sscanf`
read one: white space is skipped, then an optional sign and at least one digit
are consumed. `none` when no digit is found; else the value as an `int`. -/
def scan_int (s : List Char) : Option Int :=
  let s1 := s.dropWhile isspace
  let neg := deref s1 == '-'
  let s2 := if deref s1 == '-' || deref s1 == '+' then s1.drop 1 else s1
  let ds := s2.takeWhile isdigit
  if ds.isEmpty then none
  else some (to_int (clamp_long (if neg then - (digits_value ds : Int) else (digits_value ds : Int))))

/-- The C library's `atoi`, which is `(int) strtol(s, NULL, 10)`: 0 when no
number can be read. -/
def atoi (s : List Char) : Int := (scan_int s).getD 0

/-- The C library's `strstr(haystack, needle)`: the pointer to the first
occurrence of `needle`, or `NULL`. -/
def strstr : List Char → List Char → Option (List Char)
  | [], needle => if needle.isEmpty then some [] else none
  | x :: h, needle =>
    if needle.isPrefixOf (x :: h) then some (x :: h) else strstr h needle

/-- The decimal digits that `sprintf` writes for `%lu`. -/
def decimal (n : Nat) : List Char := Nat.toDigits 10 n

/-! ## `http_request` -/

/-- The line terminator of the wire format. -/
def CRLF : List Char := "\r\n".toList

/-- The entry `argv[i]` of an array of strings (also `data[i]`). -/
def at_index (argv : List (List Char)) (i : Nat) : List Char := argv.getD i []

/-- The value of `http_port`: `atoi(argv[1]) > 0 ? atoi(argv[1]) : 80`. -/
def http_port (argv : List (List Char)) : Int :=
  if atoi (at_index argv 1) > 0 then atoi (at_index argv 1) else 80

/-- The value of `host`: `strlen(argv[0]) > 0 ? argv[0] : "localhost"`. -/
def http_host (argv : List (List Char)) : List Char :=
  if strlen (at_index argv 0) > 0 then at_index argv 0 else "localhost".toList

/-- The header loops of `http_request`: for `i = 5 .. argc - 1`, a term is
computed from `argv[i]` and accumulated. -/
def for_headers {α : Type} (argv : List (List Char)) (init : α) (step : α → List Char → α) : α :=
  (argv.drop 5).foldl step init

/-- The value of `message_size` that `http_request` computes and passes to
`malloc` (source lines 293-325); `argc` is the length of `argv`. -/
def message_size (argv : List (List Char)) : Nat :=
  let argc := argv.length
  if at_index argv 2 == "GET".toList then
    let m := strlen "%s %s%s%s HTTP/1.0\r\n".toList
    let m := m + strlen (at_index argv 2)
    let m := m + strlen (at_index argv 3)
    let m := if argc > 4 then m + strlen (at_index argv 4) else m
    let m := for_headers argv m (fun m h => m + (strlen h + strlen CRLF))
    m + strlen CRLF
  else
    let m := strlen "%s %s HTTP/1.0\r\n".toList
    let m := m + strlen (at_index argv 2)
    let m := m + strlen (at_index argv 3)
    let m := for_headers argv m (fun m h => m + (strlen h + strlen CRLF))
    let m := if argc > 4 then m + (strlen "Content-Length: %d\r\n".toList + 10) else m
    let m := m + strlen CRLF
    if argc > 4 then m + strlen (at_index argv 4) else m

/-- The request that `http_request` renders into `message` (source lines
287-380): the string composed by its `sprintf` and `strcat` calls, or `none`
when `argc < 4` and the function returns `NULL` before rendering. The capacity
of the buffer that receives the string is `message_size`. -/
def http_request_message (argv : List (List Char)) : Option (List Char) :=
  let argc := argv.length
  if argc < 4 then none
  else if at_index argv 2 == "GET".toList then
    let message :=
      if argc > 4 then
        (if strlen (at_index argv 2) > 0 then at_index argv 2 else "GET".toList) ++ " ".toList
          ++ (if strlen (at_index argv 3) > 0 then at_index argv 3 else "/".toList)
          ++ (if strlen (at_index argv 4) > 0 then "?".toList else "".toList)
          ++ (if strlen (at_index argv 4) > 0 then at_index argv 4 else "".toList)
          ++ " HTTP/1.0\r\n".toList
      else
        (if strlen (at_index argv 2) > 0 then at_index argv 2 else "GET".toList) ++ " ".toList
          ++ (if strlen (at_index argv 3) > 0 then at_index argv 3 else "/".toList)
          ++ " HTTP/1.0\r\n".toList
    let message := for_headers argv message (fun m h => m ++ h ++ CRLF)
    some (message ++ CRLF)
  else
    let message :=
      (if strlen (at_index argv 2) > 0 then at_index argv 2 else "POST".toList) ++ " ".toList
        ++ (if strlen (at_index argv 3) > 0 then at_index argv 3 else "/".toList)
        ++ " HTTP/1.0\r\n".toList
    let message := for_headers argv message (fun m h => m ++ h ++ CRLF)
    let message :=
      if argc > 4 then
        message ++ "Content-Length: ".toList ++ decimal (strlen (at_index argv 4)) ++ CRLF
      else message
    let message := message ++ CRLF
    let message := if argc > 4 then message ++ at_index argv 4 else message
    some message

/-- The call `sscanf(response, "HTTP/1.1 %d", &code)`: the value stored into
`code`, or `none` when the input does not match up to the conversion and
nothing is stored. The literal chars must match one by one; the blank of the
format and `%d` itself skip any white space. -/
def sscanf_status (response : List Char) : Option Int :=
  if "HTTP/1.1".toList.isPrefixOf response then
    scan_int (response.drop (strlen "HTTP/1.1".toList))
  else none

/-- The end of `http_request` (source lines 458-476) on the NUL-terminated
string left in `response`, up to the `return` statement. The local `code` is
declared without a value: `code0` is what it holds when `sscanf` stores
nothing. The result is `none` when the statement returns `NULL`; else it is the
string that stands at the returned address `data + 4` while `response` is still
alive. That address lies inside the automatic array `response` of
`http_request`: what the caller holds after the return is `http_request_return`. -/
def http_response (code0 : Int) (response : List Char) : Option (List Char) :=
  let code := (sscanf_status response).getD code0
  if code != 200 then none
  else
    match strstr response "\r\n\r\n".toList with
    | some data => some (data.drop 4)
    | none => none

/-- A pointer as `http_request` returns it: `NULL`, or the address
`response + offset` of a byte of `char response[4096]`. That array is an
automatic variable of `http_request`: its lifetime ends when the function
returns, so a caller that holds `response + offset` holds the address of no
object, and no string can be read through it. -/
inductive response_pointer where
  | null
  | response_plus (offset : Nat)
  deriving DecidableEq

/-- The pointer that `http_request` returns for the string left in `response`
(source lines 458-476): `NULL`, or `data + 4`, which is `response` plus the
number of chars that stand before the body. -/
def http_request_return (code0 : Int) (response : List Char) : response_pointer :=
  match http_response code0 response with
  | none => response_pointer.null
  | some body => response_pointer.response_plus (strlen response - strlen body)

/-! ## `_nss_ftp_accounts_manager_getpwnam_r` -/

/-- The two values of `enum nss_status` that the source returns. -/
inductive nss_status where
  | NSS_STATUS_NOTFOUND
  | NSS_STATUS_SUCCESS
  deriving DecidableEq

/-- The record `t_config`; the `char` arrays are held as strings. -/
structure t_config where
  set : Nat
  host : List Char
  port : List Char
  passwd_endpoint : List Char
  shadow_endpoint : List Char
  deriving DecidableEq

/-- The fields of the C library's `struct passwd`; `pw_uid` and `pw_gid` hold
`uid_t` and `gid_t` values. -/
structure passwd where
  pw_name : List Char
  pw_passwd : List Char
  pw_uid : Nat
  pw_gid : Nat
  pw_gecos : List Char
  pw_dir : List Char
  pw_shell : List Char
  deriving DecidableEq

/-- The constant `MIN_UID_NUMBER`. -/
def MIN_UID_NUMBER : Nat := 60000

/-- The constant `MIN_GID_NUMBER`. -/
def MIN_GID_NUMBER : Nat := 60000

/-- The capacity of the local array `char endpoint[64]`. -/
def ENDPOINT_SIZE : Nat := 64

/-- The call `sprintf(endpoint, "%s/%s", config->passwd_endpoint, name)`: the
string left in `endpoint`. The call writes the string and its terminator;
`none` when they do not fit the 64 bytes of `endpoint` and the call writes past
the array. -/
def getpwnam_endpoint (config : t_config) (name : List Char) : Option (List Char) :=
  let s := config.passwd_endpoint ++ "/".toList ++ name
  if strlen s + 1 ≤ ENDPOINT_SIZE then some s else none

/-- The array `http_argv` handed to `http_request` with `argc = 4`. -/
def getpwnam_argv (config : t_config) (endpoint : List Char) : List (List Char) :=
  [config.host, config.port, "GET".toList, endpoint]

/-- The request that the account lookup renders for `name` under a loaded
`config` (source lines 87-96 and the rendering of `http_request`); `none` when
the lookup does not get as far as a rendered request. -/
def getpwnam_request (config : t_config) (name : List Char) : Option (List Char) :=
  match getpwnam_endpoint config name with
  | none => none
  | some endpoint => http_request_message (getpwnam_argv config endpoint)

/-- The account lookup from the return of `http_request` on (source lines
97-131): `response_data` is `none` for a returned `NULL`, else the string that
the lookup reads at the returned pointer; `p` is the caller's record. The
result is the returned status and the record as the call leaves it. -/
def getpwnam_record (response_data : Option (List Char)) (p : passwd) : nss_status × passwd :=
  match response_data with
  | none => (nss_status.NSS_STATUS_NOTFOUND, p)
  | some body =>
    match ft_strsplit (some body) ':' with
    | none => (nss_status.NSS_STATUS_NOTFOUND, p)
    | some data =>
      if get_array_length data < 7 then (nss_status.NSS_STATUS_NOTFOUND, p)
      else
        let p1 : passwd :=
          { p with
            pw_name := at_index data 0
            pw_passwd := at_index data 1
            pw_uid := to_uid_t (atoi (at_index data 2))
            pw_gid := to_uid_t (atoi (at_index data 3))
            pw_dir := at_index data 5 }
        let p2 : passwd := if p1.pw_uid < MIN_UID_NUMBER then { p1 with pw_uid := MIN_UID_NUMBER } else p1
        let p3 : passwd := if p2.pw_gid < MIN_GID_NUMBER then { p2 with pw_gid := MIN_GID_NUMBER } else p2
        (nss_status.NSS_STATUS_SUCCESS, p3)

/-- The extra header lines, each followed by `"\r\n"`. -/
def header_lines (headers : List (List Char)) : List Char :=
  (headers.map (fun h => h ++ "\r\n".toList)).flatten

/-! ## `parse_config` and `read_conf` -/

/-- The constant `HOST_SET`. -/
def HOST_SET : Nat := 1

/-- The constant `PORT_SET`. -/
def PORT_SET : Nat := 2

/-- The constant `PASSWD_ENDPOINT_SET`. -/
def PASSWD_ENDPOINT_SET : Nat := 4

/-- The constant `SHADOW_ENDPOINT_SET`. -/
def SHADOW_ENDPOINT_SET : Nat := 8

/-- The conversion `%s` of `sscanf`: white space is skipped, then the chars up
to the next white space are stored. `none` when the input ends before a char
is found and nothing is stored. -/
def scan_token (s : List Char) : Option (List Char) :=
  let t := (s.dropWhile isspace).takeWhile (fun c => !isspace c)
  if t.isEmpty then none else some t

/-- The call `sscanf(buf, "<key> = %s", field)` of `parse_config`: the string
stored into `field` when the call returns 1, `none` when it returns 0 or EOF
and stores nothing. The chars of `key` and the `=` must match one by one, each
blank of the format skips any white space, and so does `%s`. -/
def sscanf_directive (key buf : List Char) : Option (List Char) :=
  if key.isPrefixOf buf then
    match (buf.drop (strlen key)).dropWhile isspace with
    | '=' :: rest => scan_token rest
    | _ => none
  else none

/-- The initial record of `read_conf`: the allocated `t_config` after `memset`. -/
def empty_config : t_config := ⟨0, [], [], [], []⟩

/-- The function `parse_config(buf, config)`: the returned error code and the
record as the call leaves it. Each `sscanf` stores straight into the field of
`config`; `none` when the stored string and its terminator do not fit the array
of the field (`host[32]`, `port[6]`, `passwd_endpoint[64]`, `shadow_endpoint[64]`)
and the call writes past it. -/
def parse_config (buf : List Char) (config : t_config) : Option (Nat × t_config) :=
  if (scan_token buf).isNone || deref buf == '#' then some (0, config)
  else
    match sscanf_directive "host".toList buf with
    | some v =>
      if strlen v + 1 ≤ 32 then
        if config.set &&& HOST_SET != 0 then some (1, { config with host := v })
        else some (0, { config with host := v, set := config.set ||| HOST_SET })
      else none
    | none =>
    match sscanf_directive "port".toList buf with
    | some v =>
      if strlen v + 1 ≤ 6 then
        if config.set &&& PORT_SET != 0 then some (1, { config with port := v })
        else some (0, { config with port := v, set := config.set ||| PORT_SET })
      else none
    | none =>
    match sscanf_directive "passwd_endpoint".toList buf with
    | some v =>
      if strlen v + 1 ≤ 64 then
        if config.set &&& PASSWD_ENDPOINT_SET != 0 then
          some (1, { config with passwd_endpoint := v })
        else
          some (0, { config with passwd_endpoint := v,
                                 set := config.set ||| PASSWD_ENDPOINT_SET })
      else none
    | none =>
    match sscanf_directive "shadow_endpoint".toList buf with
    | some v =>
      if strlen v + 1 ≤ 64 then
        if config.set &&& SHADOW_ENDPOINT_SET != 0 then
          some (1, { config with shadow_endpoint := v })
        else
          some (0, { config with shadow_endpoint := v,
                                 set := config.set ||| SHADOW_ENDPOINT_SET })
      else none
    | none => some (1, config)

/-- The `fgets` loop of `read_conf` over the lines still to be read;
`line_number` counts the lines read so far and `errors` lists the line numbers
reported to the log. -/
def read_conf_loop : List (List Char) → Nat → t_config → List Nat → Option (t_config × List Nat)
  | [], _, config, errors => some (config, errors)
  | buf :: rest, line_number, config, errors =>
    match parse_config buf config with
    | none => none
    | some (r, config1) =>
      read_conf_loop rest (line_number + 1) config1
        (if r > 0 then errors ++ [line_number + 1] else errors)

/-- The function `read_conf()`. `file` is what `fopen` finds: `none` when the
file cannot be opened, else the lines as `fgets` delivers them. The result is
the returned pointer (`none` for `NULL`) with the line numbers reported to the
log; the outer `none` when a line makes `parse_config` write past an array. -/
def read_conf (file : Option (List (List Char))) : Option (Option t_config × List Nat) :=
  match file with
  | none => some (none, [])
  | some lines =>
    match read_conf_loop lines 0 empty_config [] with
    | none => none
    | some (config, errors) => some (some config, errors)

/-! ## The send and receive loops of `http_request` -/

/-- The send loop (source lines 410-425). `results` are the values returned by
the successive calls `write(sockfd, message + sent, total - sent)`, `sent` the
counter on entry to the loop body. The result lists the value of `sent` at the
end of each pass through the body: a pass whose `write` returns 0 leaves the
loop and `sent` as it is, any other pass adds `bytes` to `sent` and goes on
while `sent < total`. -/
def send_loop (total : Int) : List Int → Int → List Int
  | [], _ => []
  | bytes :: results, sent =>
    if bytes == 0 then [sent]
    else if sent + bytes < total then (sent + bytes) :: send_loop total results (sent + bytes)
    else [sent + bytes]

/-- The size of the array `response`. -/
def RESPONSE_SIZE : Int := 4096

/-- The receive loop (source lines 427-444) with `total = sizeof(response) - 1`.
`results` are the values returned by the successive calls
`read(sockfd, response + received, total - received)`, `received` the counter on
entry to the loop body. The result lists the value of `received` at the end of
each pass through the body. -/
def recv_loop (total : Int) : List Int → Int → List Int
  | [], _ => []
  | bytes :: results, received =>
    if bytes == 0 then [received]
    else if received + bytes < total then
      (received + bytes) :: recv_loop total results (received + bytes)
    else [received + bytes]

/-! ## The account lookup as a whole -/

/-- The function `_nss_ftp_accounts_manager_getpwnam_r(name, p, ...)`. `file` is
what `fopen` finds for the config file and `http_request` gives, for an argument
array, what the lookup reads at the pointer that `http_request(4, http_argv)`
returns (`none` for `NULL`). The result
is the returned status with the record as the call leaves it, or `none` when
the call runs into undefined behaviour: `config->passwd_endpoint` is read
through the pointer that `read_conf` returned, also when that pointer is
`NULL`, and `sprintf` writes the path into `endpoint` whatever its length. -/
def _nss_ftp_accounts_manager_getpwnam_r (file : Option (List (List Char)))
    (http_request : List (List Char) → Option (List Char)) (name : List Char) (p : passwd) :
    Option (nss_status × passwd) :=
  match read_conf file with
  | none => none
  | some (none, _) => none
  | some (some config, _) =>
    match getpwnam_endpoint config name with
    | none => none
    | some endpoint => some (getpwnam_record (http_request (getpwnam_argv config endpoint)) p)

/-! ## Strings built from tokens and delimiters -/

/-- The tokens `ts` joined by runs of the delimiter `c`: between two
consecutive tokens stand one delimiter and as many more as the next entry of
`extra` says (none when `extra` has run out), and `trail` delimiters follow the
last token. -/
def join_padded (c : Char) : List (List Char) → List Nat → Nat → List Char
  | [], _, trail => List.replicate trail c
  | [t], _, trail => t ++ List.replicate trail c
  | t :: t1 :: ts, extra, trail =>
    t ++ List.replicate (extra.headD 0 + 1) c ++ join_padded c (t1 :: ts) extra.tail trail

/-! ## The tokenizer splits a string into its maximal runs -/

theorem maximal_runs_nil (c : Char) : maximal_runs c [] = [] := by
  simp [maximal_runs, List.splitOn]

theorem maximal_runs_cons_self (c : Char) (s : List Char) :
    maximal_runs c (c :: s) = maximal_runs c s := by
  simp [maximal_runs, List.splitOn, List.splitOnP_cons]

theorem maximal_runs_word (c : Char) (w rest : List Char) (hw : ∀ x ∈ w, x ≠ c) (hne : w ≠ [])
    (hrest : rest = [] ∨ ∃ r, rest = c :: r) :
    maximal_runs c (w ++ rest) = w :: maximal_runs c rest := by
  rcases hrest with rfl | ⟨r, rfl⟩
  · have h : w.splitOnP (fun x => x == c) = [w] :=
      List.splitOnP_eq_single _ _ (by simpa using hw)
    simp [maximal_runs, List.splitOn, h, hne]
  · have h : (w ++ c :: r).splitOnP (fun x => x == c) = w :: r.splitOnP (fun x => x == c) :=
      List.splitOnP_first _ _ (by simpa using hw) c (by simp) r
    rw [maximal_runs_cons_self]
    simp [maximal_runs, List.splitOn, h, hne]

theorem count_letters_loop_acc (g : List Char) (c : Char) (l : Nat) :
    count_letters_loop g c l = count_letters g c + l := by
  induction g generalizing l with
  | nil => simp [count_letters, count_letters_loop]
  | cons x g ih =>
    unfold count_letters
    simp only [count_letters_loop]
    split
    · rw [ih (l + 1), ih (0 + 1)]; omega
    · simp

theorem count_letters_cons (x : Char) (g : List Char) (c : Char) :
    count_letters (x :: g) c = if x != NUL && x != c then count_letters g c + 1 else 0 := by
  unfold count_letters
  simp only [count_letters_loop]
  split
  · rw [count_letters_loop_acc]; rfl
  · rfl

theorem count_letters_take (g : List Char) (c : Char) :
    ∀ x ∈ g.take (count_letters g c), x ≠ c := by
  induction g with
  | nil => simp
  | cons y g ih =>
    rw [count_letters_cons]
    split
    · rename_i h
      simp only [Bool.and_eq_true, bne_iff_ne, ne_eq] at h
      intro x hx
      simp only [List.take_succ_cons, List.mem_cons] at hx
      rcases hx with rfl | hx
      · exact h.2
      · exact ih x hx
    · simp

theorem count_letters_drop (g : List Char) (c : Char) (hnul : NUL ∉ g) :
    g.drop (count_letters g c) = [] ∨ ∃ r, g.drop (count_letters g c) = c :: r := by
  induction g with
  | nil => simp
  | cons y g ih =>
    rw [count_letters_cons]
    have hy : y ≠ NUL := fun h => hnul (by simp [h])
    have hg : NUL ∉ g := fun h => hnul (by simp [h])
    by_cases hc : y = c
    · right; exact ⟨g, by simp [hc]⟩
    · simpa [hy, hc] using ih hg

theorem count_letters_pos (x : Char) (g : List Char) (c : Char) (hx : x ≠ NUL) (hc : x ≠ c) :
    0 < count_letters (x :: g) c := by
  rw [count_letters_cons]; simp [hx, hc]

theorem count_letters_le (g : List Char) (c : Char) : count_letters g c ≤ g.length := by
  induction g with
  | nil => simp [count_letters, count_letters_loop]
  | cons y g ih =>
    rw [count_letters_cons]
    split
    · simp only [List.length_cons]; omega
    · simp

theorem ft_split_skip_spec (g : List Char) (c : Char) (hnul : NUL ∉ g) :
    maximal_runs c (ft_split_skip g c) = maximal_runs c g ∧
      (ft_split_skip g c).length ≤ g.length ∧ NUL ∉ ft_split_skip g c ∧
      (ft_split_skip g c = [] ∨ ∃ y r, ft_split_skip g c = y :: r ∧ y ≠ c) := by
  induction g with
  | nil => simp [ft_split_skip]
  | cons x g ih =>
    have hx : x ≠ NUL := fun h => hnul (by simp [h])
    have hg : NUL ∉ g := fun h => hnul (by simp [h])
    by_cases hc : x = c
    · subst hc
      obtain ⟨h1, h2, h3, h4⟩ := ih hg
      simp only [ft_split_skip, beq_self_eq_true, if_true, bne_iff_ne, ne_eq, hx,
        not_false_eq_true]
      refine ⟨by rw [h1, maximal_runs_cons_self], ?_, h3, h4⟩
      simp only [List.length_cons]; omega
    · have hb : (x == c) = false := by simpa using hc
      simp only [ft_split_skip, hb]
      exact ⟨rfl, le_refl _, hnul, Or.inr ⟨x, g, rfl, hc⟩⟩

theorem ft_split_loop_spec (c : Char) :
    ∀ (fuel : Nat) (d : List (List Char)) (g : List Char), NUL ∉ g → g.length < fuel →
      ft_split_loop fuel d g c = some (d ++ maximal_runs c g) := by
  intro fuel
  induction fuel with
  | zero => intro d g _ h; omega
  | succ fuel ih =>
    intro d g hnul hlen
    cases g with
    | nil => simp [ft_split_loop, deref, maximal_runs_nil]
    | cons x t =>
      have hx : x ≠ NUL := fun h => hnul (by simp [h])
      obtain ⟨h1, h2, h3, h4⟩ := ft_split_skip_spec (x :: t) c hnul
      simp only [ft_split_loop, deref, List.headD_cons, bne_iff_ne, ne_eq, hx,
        not_false_eq_true, if_true]
      rcases h4 with h4 | ⟨y, r, h4, hy⟩
      · rw [h4] at h1
        simp [h4, ← h1, maximal_runs_nil]
      · have hyn : y ≠ NUL := fun h => h3 (by simp [h4, h])
        have hrn : NUL ∉ (y :: r) := by rw [← h4]; exact h3
        have hpos := count_letters_pos y r c hyn hy
        have hle := count_letters_le (y :: r) c
        have hdn : NUL ∉ (y :: r).drop (count_letters (y :: r) c) :=
          fun h => hrn (List.mem_of_mem_drop h)
        have hdl : ((y :: r).drop (count_letters (y :: r) c)).length < fuel := by
          rw [List.length_drop]
          rw [h4] at h2
          simp only [List.length_cons] at h2 hlen hle ⊢
          omega
        have hword := maximal_runs_word c ((y :: r).take (count_letters (y :: r) c))
          ((y :: r).drop (count_letters (y :: r) c)) (count_letters_take _ c)
          (by
            obtain ⟨m, hm⟩ := Nat.exists_eq_succ_of_ne_zero (Nat.pos_iff_ne_zero.mp hpos)
            rw [hm]; simp)
          (count_letters_drop _ c hrn)
        rw [List.take_append_drop] at hword
        simp only [h4, List.headD_cons, beq_iff_eq, hyn, if_false]
        rw [ih _ _ hdn hdl, ← h1, h4, hword]
        simp [ft_wordscpy]

theorem ft_strsplit_some (s : List Char) (c : Char) (hs : NUL ∉ s) :
    ft_strsplit (some s) c = some (maximal_runs c s) := by
  simpa [ft_strsplit, ft_split, strlen] using
    ft_split_loop_spec c (s.length + 1) [] s hs (by omega)

theorem ft_strsplit_examples :
    ft_strsplit (some "a:b:c".toList) ':' = some ["a".toList, "b".toList, "c".toList] ∧
      ft_strsplit (some "::a::b::".toList) ':' = some ["a".toList, "b".toList] ∧
      ft_strsplit (some "".toList) ':' = some [] ∧
      ft_strsplit (some ":::".toList) ':' = some [] ∧
      ft_strsplit none ':' = none := by
  decide

/-- C1: `ft_strsplit(s, c)` returns `NULL` for a null `s`, and for every string
`s` and delimiter `c` it returns the array of the maximal non-empty runs of
chars of `s` that differ from `c`, in left-to-right order. -/
theorem ft_strsplit_maximal_runs (s : List Char) (c : Char) (hs : NUL ∉ s) :
    ft_strsplit none c = none ∧ ft_strsplit (some s) c = some (maximal_runs c s) :=
  ⟨rfl, ft_strsplit_some s c hs⟩

theorem ft_strsplit_maximal_runs_witness :
    NUL ∉ "::a::b::".toList ∧
      (ft_strsplit none ':' = none ∧
        ft_strsplit (some "::a::b::".toList) ':' = some (maximal_runs ':' "::a::b::".toList)) :=
  ⟨by decide, ft_strsplit_maximal_runs _ _ (by decide)⟩

/-! ## The rendered request -/

theorem foldl_header_lines (hs : List (List Char)) (m : List Char) :
    hs.foldl (fun m h => m ++ h ++ CRLF) m = m ++ header_lines hs := by
  induction hs generalizing m with
  | nil => simp [header_lines]
  | cons h hs ih =>
    simp only [List.foldl_cons, ih]
    simp [header_lines, CRLF]

theorem for_headers_message (a0 a1 a2 a3 a4 : List Char) (hs : List (List Char))
    (m : List Char) :
    for_headers (a0 :: a1 :: a2 :: a3 :: a4 :: hs) m (fun m h => m ++ h ++ CRLF) =
      m ++ header_lines hs := by
  simp only [for_headers, List.drop_succ_cons, List.drop_zero, foldl_header_lines]

theorem for_headers_four (a0 a1 a2 a3 : List Char) (m : List Char) :
    for_headers [a0, a1, a2, a3] m (fun m h => m ++ h ++ CRLF) = m := by
  simp [for_headers]

theorem http_request_message_get_query (host port path q : List Char)
    (headers : List (List Char)) :
    http_request_message ([host, port, "GET".toList, path, q] ++ headers) =
      some ("GET ".toList ++ (if path = [] then "/".toList else path)
        ++ (if q = [] then [] else "?".toList ++ q) ++ " HTTP/1.0\r\n".toList
        ++ header_lines headers ++ "\r\n".toList) := by
  have hget : strlen "GET".toList > 0 := by decide
  simp only [http_request_message, List.cons_append, List.nil_append, for_headers_message]
  by_cases hp : path = [] <;> by_cases hq : q = [] <;>
    simp [at_index, hget, strlen, hp, hq, List.length_pos, CRLF]

theorem http_request_message_get_plain (host port path : List Char) :
    http_request_message [host, port, "GET".toList, path] =
      some ("GET ".toList ++ (if path = [] then "/".toList else path)
        ++ " HTTP/1.0\r\n".toList ++ "\r\n".toList) := by
  have hget : strlen "GET".toList > 0 := by decide
  simp only [http_request_message, for_headers_four]
  by_cases hp : path = [] <;>
    simp [at_index, hget, strlen, hp, List.length_pos, CRLF]

theorem http_request_message_body (host port method path body : List Char)
    (headers : List (List Char)) (hm : method ≠ "GET".toList) :
    http_request_message ([host, port, method, path, body] ++ headers) =
      some ((if method = [] then "POST".toList else method) ++ " ".toList
        ++ (if path = [] then "/".toList else path) ++ " HTTP/1.0\r\n".toList
        ++ header_lines headers
        ++ "Content-Length: ".toList ++ decimal body.length ++ "\r\n".toList
        ++ "\r\n".toList ++ body) := by
  have hm2 : ¬ method = ['G', 'E', 'T'] := hm
  simp only [http_request_message, List.cons_append, List.nil_append, for_headers_message]
  by_cases hp : path = [] <;> by_cases hq : method = [] <;>
    simp [at_index, strlen, hp, hq, hm2, List.length_pos, CRLF]

theorem http_request_message_no_body (host port method path : List Char)
    (hm : method ≠ "GET".toList) :
    http_request_message [host, port, method, path] =
      some ((if method = [] then "POST".toList else method) ++ " ".toList
        ++ (if path = [] then "/".toList else path) ++ " HTTP/1.0\r\n".toList
        ++ "\r\n".toList) := by
  have hm2 : ¬ method = ['G', 'E', 'T'] := hm
  simp only [http_request_message, for_headers_four]
  by_cases hp : path = [] <;> by_cases hq : method = [] <;>
    simp [at_index, strlen, hp, hq, hm2, List.length_pos, CRLF]

/-- C2: for a GET request with a non-empty path whose query string is absent
(four arguments) or empty (with any extra header lines), the rendered message
is exactly `"GET " + path + " HTTP/1.0\r\n"`, each header line with a trailing
`"\r\n"`, and the blank line `"\r\n"`, with nothing after it. -/
theorem http_request_get_exact (host port path : List Char) (headers : List (List Char))
    (hpath : path ≠ []) :
    http_request_message [host, port, "GET".toList, path] =
        some ("GET ".toList ++ path ++ " HTTP/1.0\r\n".toList ++ "\r\n".toList) ∧
      http_request_message ([host, port, "GET".toList, path, "".toList] ++ headers) =
        some ("GET ".toList ++ path ++ " HTTP/1.0\r\n".toList ++ header_lines headers
          ++ "\r\n".toList) := by
  constructor
  · rw [http_request_message_get_plain]; simp [hpath]
  · rw [http_request_message_get_query]; simp [hpath]

theorem http_request_get_exact_witness :
    "/passwd/alice".toList ≠ [] ∧
      (http_request_message ["api".toList, "80".toList, "GET".toList, "/passwd/alice".toList] =
          some ("GET ".toList ++ "/passwd/alice".toList ++ " HTTP/1.0\r\n".toList
            ++ "\r\n".toList) ∧
        http_request_message (["api".toList, "80".toList, "GET".toList, "/passwd/alice".toList,
            "".toList] ++ ["Accept: */*".toList, "X-A: b".toList]) =
          some ("GET ".toList ++ "/passwd/alice".toList ++ " HTTP/1.0\r\n".toList
            ++ header_lines ["Accept: */*".toList, "X-A: b".toList] ++ "\r\n".toList)) :=
  ⟨by decide, http_request_get_exact _ _ _ _ (by decide)⟩

/-- C3: for a non-GET request with a non-empty body, the rendered message is
exactly the request line (the method, or `POST` for an empty method, a blank,
the path, or `/` for an empty path, and `" HTTP/1.0\r\n"`), each extra header
line with `"\r\n"`, `"Content-Length: <n>\r\n"` with `<n>` the decimal length of
the body, the blank line `"\r\n"`, and the body unchanged. -/
theorem http_request_body_exact (host port method path body : List Char)
    (headers : List (List Char)) (hmethod : method ≠ "GET".toList) (_hbody : body ≠ []) :
    http_request_message ([host, port, method, path, body] ++ headers) =
      some ((if method = [] then "POST".toList else method) ++ " ".toList
        ++ (if path = [] then "/".toList else path) ++ " HTTP/1.0\r\n".toList
        ++ header_lines headers
        ++ "Content-Length: ".toList ++ (Nat.repr body.length).toList ++ "\r\n".toList
        ++ "\r\n".toList ++ body) := by
  rw [http_request_message_body _ _ _ _ _ _ hmethod]
  rfl

theorem http_request_body_exact_witness :
    "POST".toList ≠ "GET".toList ∧ "name=alice".toList ≠ [] ∧
      http_request_message (["api".toList, "80".toList, "POST".toList, "/users".toList,
          "name=alice".toList] ++ ["X-A: b".toList]) =
        some ((if "POST".toList = [] then "POST".toList else "POST".toList) ++ " ".toList
          ++ (if "/users".toList = [] then "/".toList else "/users".toList)
          ++ " HTTP/1.0\r\n".toList ++ header_lines ["X-A: b".toList]
          ++ "Content-Length: ".toList ++ (Nat.repr "name=alice".toList.length).toList
          ++ "\r\n".toList ++ "\r\n".toList ++ "name=alice".toList) :=
  ⟨by decide, by decide, http_request_body_exact _ _ _ _ _ _ (by decide) (by decide)⟩

/-- C4, as stated, fails: a POST request whose body argument is present but
empty is rendered with the header `Content-Length: 0`, not as the request line
followed by the blank line alone. -/
theorem http_request_empty_body_counterexample :
    http_request_message ["api".toList, "80".toList, "POST".toList, "/users".toList,
        "".toList] =
      some "POST /users HTTP/1.0\r\nContent-Length: 0\r\n\r\n".toList ∧
    http_request_message ["api".toList, "80".toList, "POST".toList, "/users".toList,
        "".toList] ≠
      some ("POST /users HTTP/1.0\r\n".toList ++ header_lines [] ++ "\r\n".toList) := by
  decide

/-- C4, amended: the `Content-Length` header is inserted whenever the method is
not GET and a body argument is present, empty or not. For a non-GET request
whose body argument is present but empty the rendered message is exactly the
request line, the extra header lines each with `"\r\n"`, the header
`"Content-Length: 0\r\n"` and the blank line `"\r\n"`. -/
theorem http_request_empty_body_content_length (host port method path : List Char)
    (headers : List (List Char)) (hmethod : method ≠ "GET".toList) :
    http_request_message ([host, port, method, path, "".toList] ++ headers) =
      some ((if method = [] then "POST".toList else method) ++ " ".toList
        ++ (if path = [] then "/".toList else path) ++ " HTTP/1.0\r\n".toList
        ++ header_lines headers ++ "Content-Length: 0\r\n".toList ++ "\r\n".toList) := by
  rw [show "".toList = ([] : List Char) from rfl,
    http_request_message_body _ _ _ _ _ _ hmethod]
  have h0 : decimal 0 = ['0'] := by decide
  simp [h0]

theorem http_request_empty_body_content_length_witness :
    "PUT".toList ≠ "GET".toList ∧
      http_request_message (["api".toList, "80".toList, "PUT".toList, "/u".toList,
          "".toList] ++ ["X-A: b".toList]) =
        some ((if "PUT".toList = [] then "POST".toList else "PUT".toList) ++ " ".toList
          ++ (if "/u".toList = [] then "/".toList else "/u".toList) ++ " HTTP/1.0\r\n".toList
          ++ header_lines ["X-A: b".toList] ++ "Content-Length: 0\r\n".toList
          ++ "\r\n".toList) :=
  ⟨by decide, http_request_empty_body_content_length _ _ _ _ _ (by decide)⟩

/-- C5: for a GET request with a non-empty fifth argument `q`, the rendered
message is the request line `"GET " + path + "?" + q + " HTTP/1.0\r\n"` (`path`
is the path argument, `/` standing for an empty one), the extra header lines
each with `"\r\n"`, and the blank line `"\r\n"` at the end: `q` stands nowhere
else, and neither a body nor a `Content-Length` header is emitted. -/
theorem http_request_get_query_exact (host port path q : List Char)
    (headers : List (List Char)) (hq : q ≠ []) :
    http_request_message ([host, port, "GET".toList, path, q] ++ headers) =
      some ("GET ".toList ++ (if path = [] then "/".toList else path) ++ "?".toList ++ q
        ++ " HTTP/1.0\r\n".toList ++ header_lines headers ++ "\r\n".toList) := by
  rw [http_request_message_get_query]; simp [hq]

theorem http_request_get_query_exact_witness :
    "user=alice".toList ≠ [] ∧
      http_request_message (["api".toList, "80".toList, "GET".toList, "/search".toList,
          "user=alice".toList] ++ ["X-A: b".toList]) =
        some ("GET ".toList ++ (if "/search".toList = [] then "/".toList else "/search".toList)
          ++ "?".toList ++ "user=alice".toList
          ++ " HTTP/1.0\r\n".toList ++ header_lines ["X-A: b".toList] ++ "\r\n".toList) :=
  ⟨by decide, http_request_get_query_exact _ _ _ _ _ (by decide)⟩

theorem http_request_get_query_example :
    http_request_message ["api".toList, "80".toList, "GET".toList, "/search".toList,
        "user=alice".toList, "X-A: b".toList] =
      some "GET /search?user=alice HTTP/1.0\r\nX-A: b\r\n\r\n".toList := by
  decide

/-! ## The account lookup's request -/

/-- When the endpoint string and its terminator fit `endpoint`, the account
lookup renders exactly `"GET " + passwd_endpoint + "/" + name + " HTTP/1.0\r\n\r\n"`. -/
theorem getpwnam_request_fits (config : t_config) (name : List Char)
    (hfit : strlen (config.passwd_endpoint ++ "/".toList ++ name) < ENDPOINT_SIZE) :
    getpwnam_request config name =
      some ("GET ".toList ++ config.passwd_endpoint ++ "/".toList ++ name
        ++ " HTTP/1.0\r\n\r\n".toList) := by
  have hne : config.passwd_endpoint ++ "/".toList ++ name ≠ [] := by simp
  have hle : strlen (config.passwd_endpoint ++ "/".toList ++ name) + 1 ≤ ENDPOINT_SIZE := hfit
  simp only [getpwnam_request, getpwnam_endpoint, hle, if_true, getpwnam_argv]
  rw [http_request_message_get_plain, if_neg hne]
  simp

/-- C6, evaluated at a failing input: for the loaded config with
`passwd_endpoint = "/passwd"` and an account name of 64 chars, the endpoint
string has 72 chars, `sprintf` writes past the 64 bytes of `endpoint`, and no
request `"GET /passwd/<name> HTTP/1.0\r\n\r\n"` is rendered. -/
theorem getpwnam_request_long_name :
    strlen ("/passwd".toList ++ "/".toList ++ List.replicate 64 'a') = 72 ∧
      getpwnam_endpoint ⟨15, "localhost".toList, "80".toList, "/passwd".toList,
        "/shadow".toList⟩ (List.replicate 64 'a') = none ∧
      getpwnam_request ⟨15, "localhost".toList, "80".toList, "/passwd".toList,
        "/shadow".toList⟩ (List.replicate 64 'a') = none := by
  decide

/-! ## The response -/

theorem http_response_no_separator (code0 : Int) (response : List Char)
    (h : strstr response "\r\n\r\n".toList = none) : http_response code0 response = none := by
  simp only [http_response, h]
  split <;> rfl

theorem http_response_scanned (code0 : Int) (response : List Char) (n : Int)
    (h : sscanf_status response = some n) (hn : n ≠ 200) :
    http_response code0 response = none := by
  simp [http_response, h, hn]

/-- C7, evaluated at a failing input: the response begins with the status line
`HTTP/1.0 404 Not Found`, `sscanf` stores nothing, and with 200 left in the
uninitialised `code` the function returns the body instead of `NULL`. -/
theorem http_response_unmatched_status_line :
    sscanf_status "HTTP/1.0 404 Not Found\r\n\r\nroot:x:0:0:root:/root:/bin/sh".toList = none ∧
      http_response 200 "HTTP/1.0 404 Not Found\r\n\r\nroot:x:0:0:root:/root:/bin/sh".toList =
        some "root:x:0:0:root:/root:/bin/sh".toList := by
  decide

theorem strstr_first (needle : List Char) :
    ∀ (hay : List Char) (i : Nat), needle.isPrefixOf (hay.drop i) = true →
      (∀ j, j < i → needle.isPrefixOf (hay.drop j) = false) →
      strstr hay needle = some (hay.drop i) := by
  intro hay
  induction hay with
  | nil =>
    intro i h _
    cases needle with
    | nil => simp [strstr]
    | cons a t => simp [List.isPrefixOf] at h
  | cons x hay ih =>
    intro i h hmin
    cases i with
    | zero =>
      simp only [List.drop_zero] at h
      simp [strstr, h]
    | succ i =>
      have h0 := hmin 0 (Nat.succ_pos i)
      simp only [List.drop_zero] at h0
      simp only [strstr, h0, List.drop_succ_cons]
      apply ih i (by simpa using h)
      intro j hj
      simpa using hmin (j + 1) (by omega)

theorem sscanf_status_200 (rest : List Char) (hrest : isdigit (deref rest) = false) :
    sscanf_status ("HTTP/1.1 200".toList ++ rest) = some 200 := by
  have htw : rest.takeWhile isdigit = [] := by
    cases rest with
    | nil => rfl
    | cons x t =>
      have hx : isdigit x = false := by simpa [deref] using hrest
      simp [List.takeWhile, hx]
  have h2 : isdigit '2' = true := by decide
  have h0 : isdigit '0' = true := by decide
  have hs : isspace ' ' = true := by decide
  have hs2 : isspace '2' = false := by decide
  simp [sscanf_status, scan_int, strlen, List.isPrefixOf, List.dropWhile, List.takeWhile,
    hs, hs2, h2, h0, htw, deref]
  decide

/-- While `response` is alive, the string at the returned address is the
response without its first `i + 4` chars, `i` being the offset of the first
`"\r\n\r\n"`, when the scanned status code is 200. -/
theorem http_response_body (code0 : Int) (response : List Char) (i : Nat)
    (hcode : sscanf_status response = some 200)
    (hocc : "\r\n\r\n".toList.isPrefixOf (response.drop i) = true)
    (hfirst : ∀ j, j < i → "\r\n\r\n".toList.isPrefixOf (response.drop j) = false) :
    http_response code0 response = some (response.drop (i + 4)) := by
  have hstr := strstr_first _ response i hocc hfirst
  simp only [http_response, hcode, hstr, Option.getD_some]
  simp [Nat.add_comm]

theorem isPrefixOf_length_le (l : List Char) :
    ∀ m : List Char, l.isPrefixOf m = true → l.length ≤ m.length := by
  induction l with
  | nil => intro m _; simp
  | cons a l ih =>
    intro m h
    cases m with
    | nil => simp [List.isPrefixOf] at h
    | cons b m =>
      simp only [List.isPrefixOf, Bool.and_eq_true] at h
      have := ih m h.2
      simp only [List.length_cons]
      omega

/-- Whenever the scanned status code is 200 and `"\r\n\r\n"` first occurs at
offset `i`, the returned pointer is `response + i + 4`, an address inside the
automatic array `response`. -/
theorem http_request_return_offset (code0 : Int) (response : List Char) (i : Nat)
    (hcode : sscanf_status response = some 200)
    (hocc : "\r\n\r\n".toList.isPrefixOf (response.drop i) = true)
    (hfirst : ∀ j, j < i → "\r\n\r\n".toList.isPrefixOf (response.drop j) = false) :
    http_request_return code0 response = response_pointer.response_plus (i + 4) ∧
      i + 4 ≤ strlen response := by
  have hlen := isPrefixOf_length_le _ _ hocc
  have h4 : "\r\n\r\n".toList.length = 4 := by decide
  rw [h4, List.length_drop] at hlen
  have hle : i + 4 ≤ strlen response := by simp only [strlen]; omega
  refine ⟨?_, hle⟩
  simp only [http_request_return, http_response_body code0 response i hcode hocc hfirst,
    strlen, List.length_drop] at hle ⊢
  congr 1
  omega

/-- C8, evaluated at a failing input: for the response
`HTTP/1.1 200 OK`, blank line, `alice:x:100:100:info:/home/alice:/bin/bash`, the
status code 200 is scanned and the separator found, and `http_request` returns
`response + 19`: the address of a byte of its own automatic array `response`,
which no longer exists when the caller holds the pointer. The body stood there
only until the return, so no body is returned. -/
theorem http_request_return_dangling :
    sscanf_status
        "HTTP/1.1 200 OK\r\n\r\nalice:x:100:100:info:/home/alice:/bin/bash".toList =
        some 200 ∧
      http_request_return 0
          "HTTP/1.1 200 OK\r\n\r\nalice:x:100:100:info:/home/alice:/bin/bash".toList =
        response_pointer.response_plus 19 ∧
      http_response 0
          "HTTP/1.1 200 OK\r\n\r\nalice:x:100:100:info:/home/alice:/bin/bash".toList =
        some "alice:x:100:100:info:/home/alice:/bin/bash".toList := by
  decide

theorem http_request_return_other_version :
    http_request_return 0 "HTTP/1.0 200 OK\r\n\r\nalice:x".toList = response_pointer.null ∧
      http_request_return 200 "HTTP/1.0 200 OK\r\n\r\nalice:x".toList =
        response_pointer.response_plus 19 := by
  decide

/-! ## The resolved record -/

theorem getElem?_eq_some_getD {α : Type} (l : List α) (i : Nat) (d : α) (h : i < l.length) :
    l[i]? = some (l.getD i d) := by
  rw [List.getD_eq_getElem?_getD, List.getElem?_eq_getElem h]; rfl

theorem getpwnam_record_fields (body : List Char) (p : passwd) (fields : List (List Char))
    (hsplit : ft_strsplit (some body) ':' = some fields) :
    getpwnam_record (some body) p =
      if fields.length < 7 then (nss_status.NSS_STATUS_NOTFOUND, p)
      else (nss_status.NSS_STATUS_SUCCESS,
        { pw_name := fields.getD 0 []
          pw_passwd := fields.getD 1 []
          pw_uid := if to_uid_t (atoi (fields.getD 2 [])) < 60000 then 60000
            else to_uid_t (atoi (fields.getD 2 []))
          pw_gid := if to_uid_t (atoi (fields.getD 3 [])) < 60000 then 60000
            else to_uid_t (atoi (fields.getD 3 []))
          pw_gecos := p.pw_gecos
          pw_dir := fields.getD 5 []
          pw_shell := p.pw_shell }) := by
  simp only [getpwnam_record, hsplit, get_array_length, at_index, MIN_UID_NUMBER, MIN_GID_NUMBER]
  split
  · rfl
  · split <;> split <;> simp_all

/-- C9, as stated, fails: in the body `alice:x:-5:-7:info:/home/alice:/bin/bash`
the numeric values of fields 2 and 3 are negative, hence below 60000, yet the
resolved uid and gid are 4294967291 and 4294967289, not 60000. -/
theorem getpwnam_record_negative_counterexample :
    atoi "-5".toList = -5 ∧ atoi "-7".toList = -7 ∧
      (getpwnam_record (some "alice:x:-5:-7:info:/home/alice:/bin/bash".toList)
        ⟨[], [], 0, 0, [], [], []⟩) =
      (nss_status.NSS_STATUS_SUCCESS, ⟨"alice".toList, "x".toList, 4294967291, 4294967289, [],
        "/home/alice".toList, []⟩) ∧
      (getpwnam_record (some "alice:x:-5:-7:info:/home/alice:/bin/bash".toList)
        ⟨[], [], 0, 0, [], [], []⟩).2.pw_uid ≠ 60000 ∧
      (getpwnam_record (some "alice:x:-5:-7:info:/home/alice:/bin/bash".toList)
        ⟨[], [], 0, 0, [], [], []⟩).2.pw_gid ≠ 60000 := by
  decide

/-- C9, amended: for a body that splits into at least 7 fields, the resolved
uid is 60000 exactly when the value of field 2 as held in the unsigned 32-bit
`uid_t` (the result of `atoi` modulo 2^32) is below 60000, and that value
unchanged otherwise; likewise the gid for field 3. The resolved uid and gid
are never below 60000. -/
theorem getpwnam_record_floor (body : List Char) (p : passwd) (fields : List (List Char))
    (hsplit : ft_strsplit (some body) ':' = some fields) (hlen : 7 ≤ fields.length) :
    (getpwnam_record (some body) p).2.pw_uid =
        (if to_uid_t (atoi (fields.getD 2 [])) < 60000 then 60000
          else to_uid_t (atoi (fields.getD 2 []))) ∧
      (getpwnam_record (some body) p).2.pw_gid =
        (if to_uid_t (atoi (fields.getD 3 [])) < 60000 then 60000
          else to_uid_t (atoi (fields.getD 3 []))) ∧
      60000 ≤ (getpwnam_record (some body) p).2.pw_uid ∧
      60000 ≤ (getpwnam_record (some body) p).2.pw_gid := by
  rw [getpwnam_record_fields body p fields hsplit, if_neg (by omega)]
  refine ⟨rfl, rfl, ?_, ?_⟩
  · show 60000 ≤ (if _ then _ else _)
    split <;> omega
  · show 60000 ≤ (if _ then _ else _)
    split <;> omega

theorem getpwnam_record_floor_witness :
    ft_strsplit (some "alice:x:100:100:info:/home/alice:/bin/bash".toList) ':' =
        some ["alice".toList, "x".toList, "100".toList, "100".toList, "info".toList,
          "/home/alice".toList, "/bin/bash".toList] ∧
      (getpwnam_record (some "alice:x:100:100:info:/home/alice:/bin/bash".toList)
        ⟨[], [], 0, 0, [], [], []⟩).2.pw_uid = 60000 ∧
      (getpwnam_record (some "alice:x:100:100:info:/home/alice:/bin/bash".toList)
        ⟨[], [], 0, 0, [], [], []⟩).2.pw_gid = 60000 :=
  have h := getpwnam_record_floor "alice:x:100:100:info:/home/alice:/bin/bash".toList
    ⟨[], [], 0, 0, [], [], []⟩
    ["alice".toList, "x".toList, "100".toList, "100".toList, "info".toList,
      "/home/alice".toList, "/bin/bash".toList] (by decide) (by decide)
  ⟨by decide, h.1.trans (by decide), h.2.1.trans (by decide)⟩

/-- C10: for a received body (a string), `ft_strsplit(body, ':')` returns an
array `fields`; the account lookup returns NotFound and leaves the record as it
was when `fields` has fewer than 7 entries, and otherwise returns Success with
name = field 0, password = field 1 and home directory = field 5. -/
theorem getpwnam_record_status (body : List Char) (p : passwd) (hbody : NUL ∉ body) :
    ∃ fields, ft_strsplit (some body) ':' = some fields ∧
      (fields.length < 7 →
        getpwnam_record (some body) p = (nss_status.NSS_STATUS_NOTFOUND, p)) ∧
      (7 ≤ fields.length →
        (getpwnam_record (some body) p).1 = nss_status.NSS_STATUS_SUCCESS ∧
        fields[0]? = some (getpwnam_record (some body) p).2.pw_name ∧
        fields[1]? = some (getpwnam_record (some body) p).2.pw_passwd ∧
        fields[5]? = some (getpwnam_record (some body) p).2.pw_dir) := by
  have hsplit := ft_strsplit_some body ':' hbody
  refine ⟨maximal_runs ':' body, hsplit, ?_, ?_⟩
  · intro h
    rw [getpwnam_record_fields body p _ hsplit, if_pos h]
  · intro h
    rw [getpwnam_record_fields body p _ hsplit, if_neg (by omega)]
    exact ⟨rfl, getElem?_eq_some_getD _ 0 [] (by omega), getElem?_eq_some_getD _ 1 [] (by omega),
      getElem?_eq_some_getD _ 5 [] (by omega)⟩

theorem getpwnam_record_status_witness :
    NUL ∉ "alice:x:100:100:info:/home/alice:/bin/bash".toList ∧
      ∃ fields, ft_strsplit (some "alice:x:100:100:info:/home/alice:/bin/bash".toList) ':' =
          some fields ∧
        (fields.length < 7 →
          getpwnam_record (some "alice:x:100:100:info:/home/alice:/bin/bash".toList)
            ⟨[], [], 0, 0, [], [], []⟩ =
            (nss_status.NSS_STATUS_NOTFOUND, ⟨[], [], 0, 0, [], [], []⟩)) ∧
        (7 ≤ fields.length →
          (getpwnam_record (some "alice:x:100:100:info:/home/alice:/bin/bash".toList)
            ⟨[], [], 0, 0, [], [], []⟩).1 = nss_status.NSS_STATUS_SUCCESS ∧
          fields[0]? = some (getpwnam_record
            (some "alice:x:100:100:info:/home/alice:/bin/bash".toList)
            ⟨[], [], 0, 0, [], [], []⟩).2.pw_name ∧
          fields[1]? = some (getpwnam_record
            (some "alice:x:100:100:info:/home/alice:/bin/bash".toList)
            ⟨[], [], 0, 0, [], [], []⟩).2.pw_passwd ∧
          fields[5]? = some (getpwnam_record
            (some "alice:x:100:100:info:/home/alice:/bin/bash".toList)
            ⟨[], [], 0, 0, [], [], []⟩).2.pw_dir) :=
  ⟨by decide, getpwnam_record_status _ _ (by decide)⟩

/-! ## The configuration loader -/

/-- C11, evaluated at a failing input: for the file with the lines
`host = api.example.com` and `host = other.example.com` the loader reports
line 2, and the loaded record holds the host of the second line,
`other.example.com`, since `sscanf` has stored it before the duplicate is
detected. -/
theorem read_conf_duplicate_host :
    read_conf (some ["host = api.example.com\n".toList, "host = other.example.com\n".toList]) =
      some (some ⟨1, "other.example.com".toList, [], [], []⟩, [2]) := by
  decide

theorem isspace_ne (w x : Char) (hw : isspace w = true) (hx : isspace x = false) : x ≠ w := by
  rintro rfl
  rw [hw] at hx
  exact Bool.noConfusion hx

theorem scan_token_blank (buf : List Char) (h : ∀ x ∈ buf, isspace x = true) :
    scan_token buf = none := by
  have hd : buf.dropWhile isspace = [] := List.dropWhile_eq_nil_iff.mpr h
  simp [scan_token, hd]

theorem sscanf_directive_space (key : List Char) (k w : Char) (buf : List Char)
    (hw : isspace w = true) (hk : isspace k = false) :
    sscanf_directive (k :: key) (w :: buf) = none := by
  have hne : k ≠ w := isspace_ne w k hw hk
  simp [sscanf_directive, List.isPrefixOf, hne]

/-- C12, as stated, fails: the line `"  # comment\n"`, whose first
non-whitespace char is `#`, is not skipped: `parse_config` returns 1, the
syntax error code. So does a line whose `#` follows a tab. -/
theorem parse_config_indented_comment_counterexample :
    parse_config "  # comment\n".toList empty_config = some (1, empty_config) ∧
      parse_config "\t# comment\n".toList empty_config = some (1, empty_config) := by
  decide

theorem dropWhile_isspace_hash (ws rest : List Char) (hws : ∀ x ∈ ws, isspace x = true) :
    (ws ++ '#' :: rest).dropWhile isspace = '#' :: rest := by
  induction ws with
  | nil =>
    have h : isspace '#' = false := by decide
    simp [List.dropWhile, h]
  | cons w ws ih =>
    have hw : isspace w = true := hws w (List.mem_cons_self _ _)
    simp only [List.cons_append, List.dropWhile, hw]
    exact ih (fun x hx => hws x (List.mem_cons_of_mem _ hx))

theorem parse_config_space_hash (w : Char) (ws rest : List Char) (config : t_config)
    (hw : isspace w = true) (hws : ∀ x ∈ ws, isspace x = true) :
    parse_config (w :: ws ++ '#' :: rest) config = some (1, config) := by
  have hd := dropWhile_isspace_hash (w :: ws) rest (by
    intro x hx
    rcases List.mem_cons.mp hx with rfl | hx
    · exact hw
    · exact hws x hx)
  have hh : isspace '#' = false := by decide
  have htok : (scan_token (w :: ws ++ '#' :: rest)).isNone = false := by
    simp only [scan_token]
    rw [show w :: ws ++ '#' :: rest = (w :: ws) ++ '#' :: rest from rfl, hd]
    simp [List.takeWhile, hh]
  have hne : (deref (w :: ws ++ '#' :: rest) == '#') = false := by
    have := isspace_ne w '#' hw hh
    simpa [deref] using fun h => this h.symm
  have h1 : sscanf_directive "host".toList (w :: ws ++ '#' :: rest) = none :=
    sscanf_directive_space "ost".toList 'h' w _ hw (by decide)
  have h2 : sscanf_directive "port".toList (w :: ws ++ '#' :: rest) = none :=
    sscanf_directive_space "ort".toList 'p' w _ hw (by decide)
  have h3 : sscanf_directive "passwd_endpoint".toList (w :: ws ++ '#' :: rest) = none :=
    sscanf_directive_space "asswd_endpoint".toList 'p' w _ hw (by decide)
  have h4 : sscanf_directive "shadow_endpoint".toList (w :: ws ++ '#' :: rest) = none :=
    sscanf_directive_space "hadow_endpoint".toList 's' w _ hw (by decide)
  simp only [parse_config, htok, hne, h1, h2, h3, h4]
  rfl

/-- C12, amended: for every line that is blank (only white space) or whose first
char is `#`, `parse_config` returns 0 and leaves every field of the record, the
`set` bitmask included, unchanged; a line in which white space stands before
the `#` is not skipped: it returns 1, and leaves the record unchanged as well. -/
theorem parse_config_skip (buf : List Char) (config : t_config) (w : Char)
    (ws rest : List Char)
    (h : (∀ x ∈ buf, isspace x = true) ∨ (∃ tail, buf = '#' :: tail))
    (hw : isspace w = true) (hws : ∀ x ∈ ws, isspace x = true) :
    parse_config buf config = some (0, config) ∧
      parse_config (w :: ws ++ '#' :: rest) config = some (1, config) := by
  refine ⟨?_, parse_config_space_hash w ws rest config hw hws⟩
  rcases h with h | ⟨tail, rfl⟩
  · simp [parse_config, scan_token_blank buf h]
  · simp [parse_config, deref]

theorem parse_config_skip_witness :
    ((∀ x ∈ "# port = 1\n".toList, isspace x = true) ∨
        (∃ tail, "# port = 1\n".toList = '#' :: tail)) ∧
      isspace ' ' = true ∧ (∀ x ∈ "\t".toList, isspace x = true) ∧
      (parse_config "# port = 1\n".toList ⟨1, "h".toList, [], [], []⟩ =
          some (0, ⟨1, "h".toList, [], [], []⟩) ∧
        parse_config (' ' :: "\t".toList ++ '#' :: " port = 1\n".toList)
            ⟨1, "h".toList, [], [], []⟩ =
          some (1, ⟨1, "h".toList, [], [], []⟩)) :=
  ⟨Or.inr ⟨_, rfl⟩, by decide, by decide,
    parse_config_skip _ _ ' ' _ _ (Or.inr ⟨_, rfl⟩) (by decide) (by decide)⟩

/-! ## The account lookup without a config file -/

/-- C13, evaluated at the failing input: when the config file cannot be opened
`read_conf` returns `NULL` and reports nothing, and the account lookup, whatever
the name, the record and the network, reads `config->passwd_endpoint` through
that null pointer instead of returning NotFound. -/
theorem getpwnam_r_absent_config (http_request : List (List Char) → Option (List Char))
    (name : List Char) (p : passwd) :
    read_conf none = some (none, []) ∧
      _nss_ftp_accounts_manager_getpwnam_r none http_request name p = none :=
  ⟨rfl, rfl⟩

/-! ## Defaults of the request line -/

/-- C14: when the method argument is empty the rendered request line starts
with the default verb, which is `POST` (an empty method is not `"GET"`, so the
non-GET rendering applies), and when the path argument is empty the rendered
request line has `/` as its path, whatever the method and the further
arguments. -/
theorem http_request_defaults (host port method path : List Char) (rest : List (List Char)) :
    (∃ tail, http_request_message (host :: port :: [] :: path :: rest) =
        some ("POST ".toList ++ (if path = [] then "/".toList else path)
          ++ " HTTP/1.0\r\n".toList ++ tail)) ∧
      (∃ tail, http_request_message (host :: port :: method :: [] :: rest) =
        some ((if method = [] then "POST".toList else method) ++ " /".toList
          ++ (if method = "GET".toList ∧ at_index rest 0 ≠ [] then
                "?".toList ++ at_index rest 0 else [])
          ++ " HTTP/1.0\r\n".toList ++ tail)) := by
  have hne : ([] : List Char) ≠ "GET".toList := by decide
  constructor
  · cases rest with
    | nil =>
      refine ⟨"\r\n".toList, ?_⟩
      rw [http_request_message_no_body _ _ _ _ hne]
      simp
    | cons body headers =>
      refine ⟨header_lines headers ++ "Content-Length: ".toList ++ decimal body.length
        ++ "\r\n".toList ++ "\r\n".toList ++ body, ?_⟩
      rw [show host :: port :: [] :: path :: body :: headers =
        [host, port, [], path, body] ++ headers from rfl,
        http_request_message_body _ _ _ _ _ _ hne]
      simp
  · by_cases hm : method = "GET".toList
    · subst hm
      cases rest with
      | nil =>
        refine ⟨"\r\n".toList, ?_⟩
        rw [http_request_message_get_plain]
        simp [at_index]
      | cons q headers =>
        refine ⟨header_lines headers ++ "\r\n".toList, ?_⟩
        rw [show host :: port :: "GET".toList :: [] :: q :: headers =
          [host, port, "GET".toList, [], q] ++ headers from rfl,
          http_request_message_get_query]
        by_cases hq : q = [] <;> simp [at_index, hq]
    · have hm2 : ¬ method = ['G', 'E', 'T'] := hm
      cases rest with
      | nil =>
        refine ⟨"\r\n".toList, ?_⟩
        rw [http_request_message_no_body _ _ _ _ hm]
        simp [hm2]
      | cons body headers =>
        refine ⟨header_lines headers ++ "Content-Length: ".toList ++ decimal body.length
          ++ "\r\n".toList ++ "\r\n".toList ++ body, ?_⟩
        rw [show host :: port :: method :: [] :: body :: headers =
          [host, port, method, [], body] ++ headers from rfl,
          http_request_message_body _ _ _ _ _ _ hm]
        simp [hm2]

theorem http_request_defaults_examples :
    http_request_message ["api".toList, "80".toList, "".toList, "/u".toList, "a=b".toList] =
        some "POST /u HTTP/1.0\r\nContent-Length: 3\r\n\r\na=b".toList ∧
      http_request_message ["api".toList, "80".toList, "GET".toList, "".toList] =
        some "GET / HTTP/1.0\r\n\r\n".toList ∧
      http_request_message ["api".toList, "80".toList, "PUT".toList, "".toList, "x".toList] =
        some "PUT / HTTP/1.0\r\nContent-Length: 1\r\n\r\nx".toList := by
  decide

/-! ## The send loop, the receive loop and the size of the message -/

theorem send_loop_negative (total sent bytes : Int) (results : List Int) (hb : bytes < 0)
    (hs : sent ≤ total) :
    send_loop total (bytes :: results) sent =
      (sent + bytes) :: send_loop total results (sent + bytes) := by
  have h0 : (bytes == 0) = false := by simpa using (show bytes ≠ 0 by omega)
  have hlt : sent + bytes < total := by omega
  simp [send_loop, h0, hlt]

theorem recv_loop_negative (total received bytes : Int) (results : List Int) (hb : bytes < 0)
    (hr : received ≤ total) :
    recv_loop total (bytes :: results) received =
      (received + bytes) :: recv_loop total results (received + bytes) := by
  have h0 : (bytes == 0) = false := by simpa using (show bytes ≠ 0 by omega)
  have hlt : received + bytes < total := by omega
  simp [recv_loop, h0, hlt]

/-- C15, evaluated at a failing input: for a request of 10 bytes whose first
`write` fails with -1 the loop does not stop: `sent` becomes -1, a second
`write` is issued for the 11 bytes from `message - 1` on, and only its result
ends the loop. -/
theorem send_loop_error_continues :
    send_loop 10 [-1, 11] 0 = [-1, 10] ∧ (send_loop 10 [-1, 11] 0).length = 2 := by
  decide

theorem for_headers_size (a0 a1 a2 a3 a4 : List Char) (hs : List (List Char)) (m : Nat) :
    for_headers (a0 :: a1 :: a2 :: a3 :: a4 :: hs) m
        (fun m h => m + (strlen h + strlen CRLF)) =
      m + (header_lines hs).length := by
  simp only [for_headers, List.drop_succ_cons, List.drop_zero]
  induction hs generalizing m with
  | nil => simp [header_lines]
  | cons h hs ih =>
    simp only [List.foldl_cons, ih]
    simp [header_lines, strlen, CRLF]
    omega

theorem for_headers_size_four (a0 a1 a2 a3 : List Char) (m : Nat) :
    for_headers [a0, a1, a2, a3] m (fun m h => m + (strlen h + strlen CRLF)) = m := by
  simp [for_headers]

theorem decimal_length_le (n : Nat) (hn : n < 10000000000) : (decimal n).length ≤ 10 :=
  Nat.toDigitsCore_length 10 (by omega) (n + 1) n 10 (by simpa using hn) (by omega)

/-- Outside the case of C16, an empty method with no fifth argument, the
rendered message and its terminator fit `message_size`. -/
theorem message_size_fits (host port method path : List Char) (rest : List (List Char))
    (h : method ≠ [] ∨ rest ≠ []) (hbody : strlen (at_index rest 0) < 10000000000) :
    ∃ m, http_request_message (host :: port :: method :: path :: rest) = some m ∧
      strlen m + 1 ≤ message_size (host :: port :: method :: path :: rest) := by
  by_cases hm : method = "GET".toList
  · subst hm
    cases rest with
    | nil =>
      refine ⟨_, http_request_message_get_plain _ _ _, ?_⟩
      simp only [message_size, for_headers_size_four]
      by_cases hp : path = []
      · simp [at_index, strlen, hp, CRLF]
      · simp [at_index, strlen, hp, CRLF]
        omega
    | cons q headers =>
      refine ⟨_, http_request_message_get_query host port path q headers, ?_⟩
      simp only [message_size, for_headers_size]
      by_cases hp : path = [] <;> by_cases hq : q = [] <;>
        simp [at_index, strlen, hp, hq, CRLF] <;> omega
  · have hm2 : ¬ method = ['G', 'E', 'T'] := hm
    cases rest with
    | nil =>
      have hne : method ≠ [] := by
        rcases h with h | h
        · exact h
        · exact absurd rfl h
      refine ⟨_, http_request_message_no_body _ _ _ _ hm, ?_⟩
      have hpos : 0 < method.length := List.length_pos.mpr hne
      simp only [message_size, for_headers_size_four]
      by_cases hp : path = [] <;> simp [at_index, strlen, hp, hne, hm2, CRLF] <;> omega
    | cons body headers =>
      refine ⟨_, http_request_message_body host port method path body headers hm, ?_⟩
      have hd := decimal_length_le body.length (by simpa [at_index, strlen] using hbody)
      simp only [message_size, for_headers_size]
      by_cases hp : path = [] <;> by_cases hq : method = [] <;>
        simp [at_index, strlen, hp, hq, hm2, CRLF] <;> omega

/-- C16, evaluated at a failing input: for the arguments
`host, port, "", "/x"` (an empty method, rendered as `POST`) `message_size` is
20, while the rendered message has 20 chars and needs 21 bytes with its
terminator. With an empty path as well the size is 18 and the message has 19
chars. -/
theorem message_size_empty_method :
    message_size ["localhost".toList, "80".toList, "".toList, "/x".toList] = 20 ∧
      http_request_message ["localhost".toList, "80".toList, "".toList, "/x".toList] =
        some "POST /x HTTP/1.0\r\n\r\n".toList ∧
      strlen "POST /x HTTP/1.0\r\n\r\n".toList + 1 = 21 ∧
      message_size ["localhost".toList, "80".toList, "".toList, "".toList] = 18 ∧
      http_request_message ["localhost".toList, "80".toList, "".toList, "".toList] =
        some "POST / HTTP/1.0\r\n\r\n".toList ∧
      strlen "POST / HTTP/1.0\r\n\r\n".toList + 1 = 20 := by
  decide

/-- C18, evaluated at a failing input: when the first `read` fails with -1 the
loop goes on with `received = -1`, so the second `read` targets
`response - 1`, outside the buffer, and may fill all 4096 bytes from there
on. -/
theorem recv_loop_error_continues :
    recv_loop (RESPONSE_SIZE - 1) [-1, 0] 0 = [-1, -1] ∧
      recv_loop (RESPONSE_SIZE - 1) [-1, 4096] 0 = [-1, 4095] := by
  decide

/-! ## The token count and the allocated array -/

theorem count_words_skip_eq (g : List Char) (c : Char) (hnul : NUL ∉ g) :
    count_words_skip g c = ft_split_skip g c := by
  induction g with
  | nil => rfl
  | cons x g ih =>
    have hx : x ≠ NUL := fun h => hnul (by simp [h])
    have hg : NUL ∉ g := fun h => hnul (by simp [h])
    by_cases hc : x = c
    · subst hc
      simp [count_words_skip, ft_split_skip, hx, ih hg]
    · simp [count_words_skip, ft_split_skip, hc]

theorem count_words_word_eq (g : List Char) (c : Char) :
    count_words_word g c = g.drop (count_letters g c) := by
  induction g with
  | nil => simp [count_words_word]
  | cons x g ih =>
    rw [count_letters_cons]
    simp only [count_words_word]
    split
    · simpa using ih
    · simp

theorem ft_count_words_loop_spec (c : Char) :
    ∀ (fuel : Nat) (n : Nat) (g : List Char), NUL ∉ g → g.length < fuel →
      ft_count_words_loop fuel g c n = n + (maximal_runs c g).length := by
  intro fuel
  induction fuel with
  | zero => intro n g _ h; omega
  | succ fuel ih =>
    intro n g hnul hlen
    cases g with
    | nil => simp [ft_count_words_loop, deref, maximal_runs_nil]
    | cons x t =>
      have hx : x ≠ NUL := fun h => hnul (by simp [h])
      obtain ⟨h1, h2, h3, h4⟩ := ft_split_skip_spec (x :: t) c hnul
      simp only [ft_count_words_loop, deref, List.headD_cons, bne_iff_ne, ne_eq, hx,
        not_false_eq_true, if_true, count_words_skip_eq (x :: t) c hnul]
      rcases h4 with h4 | ⟨y, r, h4, hy⟩
      · rw [h4] at h1
        simp [h4, ← h1, maximal_runs_nil]
      · have hyn : y ≠ NUL := fun h => h3 (by simp [h4, h])
        have hrn : NUL ∉ (y :: r) := by rw [← h4]; exact h3
        have hpos := count_letters_pos y r c hyn hy
        have hle := count_letters_le (y :: r) c
        have hdn : NUL ∉ (y :: r).drop (count_letters (y :: r) c) :=
          fun h => hrn (List.mem_of_mem_drop h)
        have hdl : ((y :: r).drop (count_letters (y :: r) c)).length < fuel := by
          rw [List.length_drop]
          rw [h4] at h2
          simp only [List.length_cons] at h2 hlen hle ⊢
          omega
        have hword := maximal_runs_word c ((y :: r).take (count_letters (y :: r) c))
          ((y :: r).drop (count_letters (y :: r) c)) (count_letters_take _ c)
          (by
            obtain ⟨m, hm⟩ := Nat.exists_eq_succ_of_ne_zero (Nat.pos_iff_ne_zero.mp hpos)
            rw [hm]; simp)
          (count_letters_drop _ c hrn)
        rw [List.take_append_drop] at hword
        simp only [h4, List.headD_cons, beq_iff_eq, hyn, if_false]
        rw [count_words_word_eq, ih _ _ hdn hdl, ← h1, h4, hword]
        simp only [List.length_cons]
        omega

theorem ft_count_words_eq (s : List Char) (c : Char) (hs : NUL ∉ s) :
    ft_count_words s c = (maximal_runs c s).length := by
  have h := ft_count_words_loop_spec c (s.length + 1) 0 s hs (by omega)
  simpa [ft_count_words, strlen] using h

theorem ft_split_some (s : List Char) (c : Char) (hs : NUL ∉ s) :
    ft_split s c = some (maximal_runs c s) := by
  simpa [ft_split, strlen] using ft_split_loop_spec c (s.length + 1) [] s hs (by omega)

/-- C17: for every string `s` and delimiter `c`, `ft_split` returns, and the
number of tokens it stores equals `ft_count_words(s, c)`; so every index `k` it
writes, from 0 up to the index of the terminating null entry, lies within the
`ft_count_words(s, c) + 1` slots that `ft_strsplit` allocated. -/
theorem ft_split_within_slots (s : List Char) (c : Char) (hs : NUL ∉ s) :
    ∃ d, ft_split s c = some d ∧ get_array_length d = ft_count_words s c ∧
      ∀ k, k ≤ get_array_length d → k < ft_strsplit_slots s c := by
  refine ⟨maximal_runs c s, ft_split_some s c hs, ?_, ?_⟩
  · rw [ft_count_words_eq s c hs]; rfl
  · intro k hk
    rw [ft_strsplit_slots, ft_count_words_eq s c hs]
    simp only [get_array_length] at hk
    omega

theorem ft_split_within_slots_witness :
    NUL ∉ "::a::b::".toList ∧
      ∃ d, ft_split "::a::b::".toList ':' = some d ∧
        get_array_length d = ft_count_words "::a::b::".toList ':' ∧
        ∀ k, k ≤ get_array_length d → k < ft_strsplit_slots "::a::b::".toList ':' :=
  ⟨by decide, ft_split_within_slots _ _ (by decide)⟩

/-! ## Records with an empty field -/

theorem length_modifyHead_cons (x : Char) (l : List (List Char)) :
    (l.modifyHead (List.cons x)).length = l.length := by
  cases l <;> rfl

theorem splitOn_length (c : Char) (s : List Char) :
    (s.splitOn c).length = s.count c + 1 := by
  induction s with
  | nil => simp [List.splitOn]
  | cons x s ih =>
    simp only [List.splitOn] at ih ⊢
    rw [List.splitOnP_cons]
    by_cases hx : x = c
    · subst hx
      simp [ih]
    · have hb : (x == c) = false := by simpa using hx
      simp only [hb, Bool.false_eq_true, if_false, length_modifyHead_cons, ih]
      rw [List.count_cons_of_ne (Ne.symm hx)]

theorem maximal_runs_length_lt (c : Char) (s : List Char) (h : [] ∈ s.splitOn c) :
    (maximal_runs c s).length < s.count c + 1 := by
  rw [← splitOn_length c s, maximal_runs, List.length_filter_lt_length_iff_exists]
  exact ⟨[], h, by simp⟩

/-- C19: for every response body with exactly six `:` in which at least one of
the seven positional fields (the pieces between the colons) is empty,
`ft_strsplit` yields fewer than 7 fields and the account lookup returns
NotFound, leaving the record as it was. -/
theorem getpwnam_record_empty_field (body : List Char) (p : passwd) (hnul : NUL ∉ body)
    (hsix : body.count ':' = 6) (hempty : [] ∈ body.splitOn ':') :
    (body.splitOn ':').length = 7 ∧
      ∃ fields, ft_strsplit (some body) ':' = some fields ∧ get_array_length fields < 7 ∧
        getpwnam_record (some body) p = (nss_status.NSS_STATUS_NOTFOUND, p) := by
  have hlt := maximal_runs_length_lt ':' body hempty
  have hsplit := ft_strsplit_some body ':' hnul
  refine ⟨by rw [splitOn_length, hsix], maximal_runs ':' body, hsplit, ?_, ?_⟩
  · simp only [get_array_length]; omega
  · rw [getpwnam_record_fields body p _ hsplit, if_pos (by omega)]

theorem getpwnam_record_empty_field_witness :
    NUL ∉ "alice:x:100:100::/home/alice:/bin/bash".toList ∧
      "alice:x:100:100::/home/alice:/bin/bash".toList.count ':' = 6 ∧
      [] ∈ "alice:x:100:100::/home/alice:/bin/bash".toList.splitOn ':' ∧
      ("alice:x:100:100::/home/alice:/bin/bash".toList.splitOn ':').length = 7 ∧
      ∃ fields, ft_strsplit (some "alice:x:100:100::/home/alice:/bin/bash".toList) ':' =
          some fields ∧ get_array_length fields < 7 ∧
        getpwnam_record (some "alice:x:100:100::/home/alice:/bin/bash".toList)
          ⟨[], [], 0, 0, [], [], []⟩ =
          (nss_status.NSS_STATUS_NOTFOUND, ⟨[], [], 0, 0, [], [], []⟩) :=
  ⟨by decide, by decide, by decide,
    getpwnam_record_empty_field _ _ (by decide) (by decide) (by decide)⟩

/-! ## Round trip -/

theorem maximal_runs_replicate_append (c : Char) (n : Nat) (s : List Char) :
    maximal_runs c (List.replicate n c ++ s) = maximal_runs c s := by
  induction n with
  | zero => simp
  | succ n ih => rw [List.replicate_succ, List.cons_append, maximal_runs_cons_self, ih]

theorem replicate_nil_or_cons (c : Char) (n : Nat) (s : List Char) (hs : s = [] ∨ ∃ r, s = c :: r) :
    List.replicate n c ++ s = [] ∨ ∃ r, List.replicate n c ++ s = c :: r := by
  cases n with
  | zero => simpa using hs
  | succ n => exact Or.inr ⟨List.replicate n c ++ s, by simp [List.replicate_succ]⟩

theorem maximal_runs_join_padded (c : Char) :
    ∀ (ts : List (List Char)) (extra : List Nat) (trail : Nat),
      (∀ t ∈ ts, t ≠ [] ∧ c ∉ t) → maximal_runs c (join_padded c ts extra trail) = ts := by
  intro ts
  induction ts with
  | nil =>
    intro extra trail _
    have h := maximal_runs_replicate_append c trail []
    simpa [join_padded, maximal_runs_nil] using h
  | cons t ts ih =>
    intro extra trail hts
    have ht := hts t (List.mem_cons_self _ _)
    have hrest : ∀ u ∈ ts, u ≠ [] ∧ c ∉ u := fun u hu => hts u (List.mem_cons_of_mem _ hu)
    have htc : ∀ x ∈ t, x ≠ c := fun x hx hxc => ht.2 (hxc ▸ hx)
    cases ts with
    | nil =>
      simp only [join_padded]
      rw [maximal_runs_word c t _ htc ht.1
        (by simpa using replicate_nil_or_cons c trail [] (Or.inl rfl))]
      have h := maximal_runs_replicate_append c trail []
      simp only [List.append_nil, maximal_runs_nil] at h
      rw [h]
    | cons t1 ts =>
      simp only [join_padded, List.append_assoc]
      rw [maximal_runs_word c t _ htc ht.1
        (Or.inr ⟨List.replicate (extra.headD 0) c ++ join_padded c (t1 :: ts) extra.tail trail,
          by simp [List.replicate_succ]⟩),
        maximal_runs_replicate_append, ih extra.tail trail hrest]

theorem not_mem_join_padded (c x : Char) (hx : x ≠ c) :
    ∀ (ts : List (List Char)) (extra : List Nat) (trail : Nat),
      (∀ t ∈ ts, x ∉ t) → x ∉ join_padded c ts extra trail := by
  intro ts
  induction ts with
  | nil =>
    intro extra trail _ h
    simp only [join_padded] at h
    exact hx (List.eq_of_mem_replicate h)
  | cons t ts ih =>
    intro extra trail hts
    have ht := hts t (List.mem_cons_self _ _)
    have hrest : ∀ u ∈ ts, x ∉ u := fun u hu => hts u (List.mem_cons_of_mem _ hu)
    cases ts with
    | nil =>
      intro h
      simp only [join_padded, List.mem_append] at h
      rcases h with h | h
      · exact ht h
      · exact hx (List.eq_of_mem_replicate h)
    | cons t1 ts =>
      intro h
      simp only [join_padded, List.mem_append] at h
      rcases h with (h | h) | h
      · exact ht h
      · exact hx (List.eq_of_mem_replicate h)
      · exact ih extra.tail trail hrest h

theorem join_padded_plain (c : Char) (ts : List (List Char)) :
    join_padded c ts [] 0 = [c].intercalate ts := by
  induction ts with
  | nil => simp [join_padded, List.intercalate]
  | cons t ts ih =>
    cases ts with
    | nil => simp [join_padded, List.intercalate]
    | cons t1 ts =>
      simp only [join_padded, List.headD_nil, List.tail_nil, ih]
      simp [List.intercalate, List.intersperse]

/-- C20: for every delimiter `c` other than NUL and every list of tokens, each
non-empty and free of `c` and of NUL, `ft_strsplit` applied to the tokens
joined with `c` returns exactly that list; and so it does when any number of
delimiters stand before the first token (`lead`), after the last (`trail`), and
in addition to the one between consecutive tokens (`extra`). -/
theorem ft_strsplit_round_trip (c : Char) (ts : List (List Char)) (extra : List Nat)
    (lead trail : Nat) (hc : c ≠ NUL) (hts : ∀ t ∈ ts, t ≠ [] ∧ c ∉ t ∧ NUL ∉ t) :
    ft_strsplit (some ([c].intercalate ts)) c = some ts ∧
      ft_strsplit (some (List.replicate lead c ++ join_padded c ts extra trail)) c =
        some ts := by
  have h1 : ∀ t ∈ ts, t ≠ [] ∧ c ∉ t := fun t ht => ⟨(hts t ht).1, (hts t ht).2.1⟩
  have h2 : ∀ t ∈ ts, NUL ∉ t := fun t ht => (hts t ht).2.2
  have hnul : ∀ (e : List Nat) (l r : Nat),
      NUL ∉ List.replicate l c ++ join_padded c ts e r := by
    intro e l r h
    rcases List.mem_append.mp h with h | h
    · exact hc (List.eq_of_mem_replicate h).symm
    · exact not_mem_join_padded c NUL (Ne.symm hc) ts e r h2 h
  constructor
  · have h := hnul [] 0 0
    simp only [List.replicate_zero, List.nil_append] at h
    rw [← join_padded_plain, ft_strsplit_some _ c h, maximal_runs_join_padded c ts [] 0 h1]
  · rw [ft_strsplit_some _ c (hnul extra lead trail), maximal_runs_replicate_append,
      maximal_runs_join_padded c ts extra trail h1]

theorem ft_strsplit_round_trip_witness :
    ':' ≠ NUL ∧
      (∀ t ∈ ["alice".toList, "x".toList, "100".toList], t ≠ [] ∧ ':' ∉ t ∧ NUL ∉ t) ∧
      [':'].intercalate ["alice".toList, "x".toList, "100".toList] = "alice:x:100".toList ∧
      List.replicate 2 ':' ++ join_padded ':' ["alice".toList, "x".toList, "100".toList] [1, 0] 3 =
        "::alice::x:100:::".toList ∧
      (ft_strsplit (some ([':'].intercalate ["alice".toList, "x".toList, "100".toList])) ':' =
          some ["alice".toList, "x".toList, "100".toList] ∧
        ft_strsplit (some (List.replicate 2 ':' ++
            join_padded ':' ["alice".toList, "x".toList, "100".toList] [1, 0] 3)) ':' =
          some ["alice".toList, "x".toList, "100".toList]) :=
  ⟨by decide, by decide, by decide, by decide,
    ft_strsplit_round_trip ':' _ [1, 0] 2 3 (by decide) (by decide)⟩

end LibnssHttp
